import Mathlib

/-!
Shallow embedding of the StudyDashboard core (src/main.py): the Course
entity, the CourseManager persistence contract, and the Dashboard
aggregation / projection computations (update_table GPA, update_chart
average, update_burndown_chart series).  Machine floats of the source are
modelled as rationals; a Python value that may be None is an Option; a
Python computation that can raise is an Option result (none = raised).
-/

namespace StudyDashboard

/-- Models Python round(x, 2): rounding a rational to two decimal places.
(The tie-breaking direction is irrelevant to every statement below, since
both sides of each equation go through the same function.) -/
def round2 (q : ℚ) : ℚ :=
  (⌊q * 100 + 1 / 2⌋ : ℚ) / 100

/-- The Course entity (class Course, src/main.py lines 117-150), in the
state every stored or displayed course is in: the ects attribute is set.
The constructor guard that can leave ects unset is modelled separately by
Course.init below.  grade is None ("not yet graded") or a number; grade 0
is a distinct "no grade yet" sentinel used by the dialogs. -/
structure Course where
  name : String
  ects : ℕ
  grade : Option ℚ
  target_grade : ℚ
  semester : ℕ
deriving DecidableEq, Repr

/-- Raw attribute state of a Course object right after __init__ ran: the
ects attribute may be absent, because the constructor assigns it only
when the argument is nonzero (src/main.py lines 136-141). -/
structure CourseAttrs where
  name : String
  ects : Option ℕ
  grade : Option ℚ
  target_grade : ℚ
  semester : ℕ
deriving DecidableEq, Repr

/-- The structured record shape produced by to_dict and consumed by
from_dict (src/main.py lines 152-173). -/
structure CourseRecord where
  name : String
  ects : ℕ
  grade : Option ℚ
  target_grade : ℚ
  semester : ℕ
deriving DecidableEq, Repr

/-- Course.__init__ (src/main.py lines 125-141).  prior is the value the
ects attribute had before __init__ ran (none on a fresh object).  The
body stores name, grade, target_grade and semester unconditionally, and
runs "if ects != 0: self.ects = ects", so a zero ects argument leaves the
prior attribute state in place. -/
def Course.init (prior : Option ℕ) (name : String) (ects : ℕ) (grade : Option ℚ)
    (target_grade : ℚ) (semester : ℕ) : CourseAttrs :=
  { name := name
    ects := if ects ≠ 0 then some ects else prior
    grade := grade
    target_grade := target_grade
    semester := semester }

/-- Course.is_completed (src/main.py lines 143-150):
"self.grade is not None and 1 <= self.grade <= 4". -/
def Course.is_completed (c : Course) : Bool :=
  match c.grade with
  | none => false
  | some g => decide (1 ≤ g ∧ g ≤ 4)

/-- Course.to_dict (src/main.py lines 152-160). -/
def Course.to_dict (c : Course) : CourseRecord :=
  { name := c.name
    ects := c.ects
    grade := c.grade
    target_grade := c.target_grade
    semester := c.semester }

/-- Course.from_dict (src/main.py lines 162-173): builds a fresh Course
object from a record by calling the constructor, so the ects guard of
Course.init applies (fresh object: no prior ects attribute). -/
def Course.from_dict (r : CourseRecord) : CourseAttrs :=
  Course.init none r.name r.ects r.grade r.target_grade r.semester

/-- The attribute state of a Course whose ects attribute is set: the
injection of Course into CourseAttrs. -/
def Course.attrs (c : Course) : CourseAttrs :=
  { name := c.name
    ects := some c.ects
    grade := c.grade
    target_grade := c.target_grade
    semester := c.semester }

/-- One step of building the Python dict comprehension
"{course.name: course for course in courses}" (src/main.py line 202):
inserting a course keyed by name into the accumulated dict.  A dict keeps
the first-insertion position of a key and overwrites its value, so a
repeated name replaces the stored course in place; a new name is appended. -/
def CourseManager.insertByName (acc : List Course) (c : Course) : List Course :=
  if acc.any fun d => d.name = c.name then
    acc.map fun d => if d.name = c.name then c else d
  else
    acc ++ [c]

/-- The values of the dict "{course.name: course for course in courses}"
in key-insertion order (src/main.py line 202). -/
def CourseManager.dictByName (courses : List Course) : List Course :=
  courses.foldl CourseManager.insertByName []

/-- CourseManager.save_courses (src/main.py lines 185-214), with the
persisted JSON file contents made an explicit argument and result.  If
deduplicating by name shrank the collection, the function warns and
returns False before any write, leaving the persisted state untouched;
otherwise it overwrites the file with the serialized dict values and
returns True. -/
def CourseManager.save_courses (courses : List Course) (persisted : List CourseRecord) :
    Bool × List CourseRecord :=
  let existing_courses := CourseManager.dictByName courses
  if existing_courses.length < courses.length then
    (false, persisted)
  else
    (true, existing_courses.map Course.to_dict)

/-- CourseManager.sort_courses_by_semester (src/main.py lines 242-253):
Python sorted(courses, key=lambda course: course.semester) is the stable
ascending sort by the semester key, i.e. a stable merge sort under the
comparison on semesters. -/
def CourseManager.sort_courses_by_semester (courses : List Course) : List Course :=
  courses.mergeSort fun a b => a.semester ≤ b.semester

/-- Truthiness of a Python grade value (None or float): None and 0.0 are
falsy, every other number is truthy. -/
def gradeTruthy : Option ℚ → Bool
  | none => false
  | some g => decide (g ≠ 0)

/-- The numerator of the GPA in Dashboard.update_table (src/main.py line
489): "sum(course.ects * (course.grade or 0) for course in self.courses
if course.grade is not None)".  Python "grade or 0" yields grade when it
is truthy and 0 otherwise. -/
def Dashboard.total_weighted (courses : List Course) : ℚ :=
  ((courses.filter fun c => c.grade.isSome).map fun c =>
    (c.ects : ℚ) * (if gradeTruthy c.grade then c.grade.getD 0 else 0)).sum

/-- The denominator of the GPA in Dashboard.update_table (src/main.py line
490): "sum(course.ects for course in self.courses if course.grade != 0)".
In Python, None != 0 is True, so a course with an absent grade passes
this filter. -/
def Dashboard.total_ects (courses : List Course) : ℕ :=
  ((courses.filter fun c => c.grade ≠ some 0).map (·.ects)).sum

/-- The GPA of Dashboard.update_table (src/main.py line 491):
"round(total_weighted / total_ects, 2) if total_ects else N/A", with none
standing for the string sentinel N/A. -/
def Dashboard.gpa (courses : List Course) : Option ℚ :=
  if Dashboard.total_ects courses ≠ 0 then
    some (round2 (Dashboard.total_weighted courses / (Dashboard.total_ects courses : ℚ)))
  else
    none

/-- The grades list of Dashboard.update_chart (src/main.py line 505):
"[course.grade for course in self.courses if course.grade]" keeps exactly
the truthy grades (present and nonzero). -/
def Dashboard.chart_grades (courses : List Course) : List ℚ :=
  (courses.filter fun c => gradeTruthy c.grade).map fun c => c.grade.getD 0

/-- The average of Dashboard.update_chart (src/main.py lines 505-509):
the plain mean of the truthy grades, 0 when there are none. -/
def Dashboard.avg_grade (courses : List Course) : ℚ :=
  let grades := Dashboard.chart_grades courses
  if grades ≠ [] then grades.sum / (grades.length : ℚ) else 0

/-- target_ects of Dashboard.update_burndown_chart (src/main.py line 524):
"sum(course.ects for course in self.courses)". -/
def Dashboard.target_ects (courses : List Course) : ℕ :=
  (courses.map (·.ects)).sum

/-- earned_ects of Dashboard.update_burndown_chart (src/main.py line 536):
"sum(course.ects for course in self.courses if course.is_completed())". -/
def Dashboard.earned_ects (courses : List Course) : ℕ :=
  ((courses.filter (·.is_completed)).map (·.ects)).sum

/-- The result bundle of Dashboard.update_burndown_chart: the x axis and
the three full series lists (each seeded with target_ects at index 0
before the loop appends one value per period). -/
structure BurndownData where
  time_periods : List ℕ
  ects_progress : List ℚ
  optimal_progress : List ℚ
  average_burn_rate : List ℚ
deriving DecidableEq, Repr

/-- The loop "for i in range(1, total_time + 1)" of
Dashboard.update_burndown_chart (src/main.py lines 543-548), threading the
three series lists.  average_rate is none when the guarded assignment on
line 541 did not run; reading it then raises NameError in Python, which
the model returns as none.  (In the source the two earlier appends of the
iteration have already happened when the NameError is raised, but the
local lists are discarded with the exception, so the crash is all that is
observable.) -/
def Dashboard.burndown_loop (te ee : ℚ) (tt : ℚ) (ltp : ℕ) (average_rate : Option ℚ) :
    List ℕ → List ℚ × List ℚ × List ℚ → Option (List ℚ × List ℚ × List ℚ)
  | [], acc => some acc
  | i :: is, (ep, op, ab) =>
    if i ≤ ltp then
      match average_rate with
      | none => none
      | some r =>
        Dashboard.burndown_loop te ee tt ltp (some r) is
          (ep ++ [te - (i : ℚ) * (ee / tt)],
           op ++ [te - (te / tt) * (i : ℚ)],
           ab ++ [te - (i : ℚ) * r])
    else
      Dashboard.burndown_loop te ee tt ltp average_rate is (ep, op, ab)

/-- The body of Dashboard.update_burndown_chart (src/main.py lines
520-548) parameterized directly by the number of periods
total_periods = target_time * 2, so that time_periods =
range(1, total_periods + 1) and total_time = len(time_periods). -/
def Dashboard.update_burndown_core (courses : List Course) (total_periods : ℕ) :
    Option BurndownData :=
  let te : ℚ := (Dashboard.target_ects courses : ℚ)
  let time_periods := List.range' 1 total_periods
  let ee : ℚ := (Dashboard.earned_ects courses : ℚ)
  let remaining_ects : ℚ := te - ee
  let total_time := time_periods.length
  let average_rate : Option ℚ :=
    if total_time > 1 then some ((te - remaining_ects) / ((total_time : ℚ) - 1)) else none
  match Dashboard.burndown_loop te ee (total_time : ℚ) time_periods.length average_rate
      (List.range' 1 total_time) ([te], [te], [te]) with
  | none => none
  | some (ep, op, ab) => some ⟨time_periods, ep, op, ab⟩

/-- Dashboard.update_burndown_chart proper: the period count is
target_time * 2 semesters (src/main.py line 526). -/
def Dashboard.update_burndown_chart (courses : List Course) (target_time : ℕ) :
    Option BurndownData :=
  Dashboard.update_burndown_core courses (target_time * 2)

/-- The series actually handed to ax.plot (src/main.py lines 553-560):
each full series truncated to the length of the x axis,
"series[:len(time_periods)]". -/
def Dashboard.burndown_plotted (d : BurndownData) : List ℚ × List ℚ × List ℚ :=
  (d.ects_progress.take d.time_periods.length,
   d.optimal_progress.take d.time_periods.length,
   d.average_burn_rate.take d.time_periods.length)

/-- Evaluation of gradeTruthy on an absent grade. -/
@[simp] lemma gradeTruthy_none : gradeTruthy none = false := rfl

/-- Evaluation of gradeTruthy on a present grade. -/
@[simp] lemma gradeTruthy_some (g : ℚ) : gradeTruthy (some g) = decide (g ≠ 0) := rfl

/-- Follows the spec wording of average_grade (spec section 4.2): graded
courses are exactly those whose grade is present and nonzero; the
weighted sum and the total credits both range over exactly the graded
courses; the result is round(weighted_sum / total_credits, 2) when
total_credits > 0 and the N/A sentinel otherwise.  Compared against the
source definition Dashboard.gpa. -/
def spec_average_grade (courses : List Course) : Option ℚ :=
  let graded := courses.filter fun c => gradeTruthy c.grade
  let weighted_sum : ℚ := (graded.map fun c => (c.ects : ℚ) * c.grade.getD 0).sum
  let total_credits : ℕ := (graded.map (·.ects)).sum
  if total_credits > 0 then some (round2 (weighted_sum / (total_credits : ℚ))) else none

/-- The claim of C1 amended as little as the counterexample forces: the
numerator still ranges over exactly the graded (present, nonzero)
courses, but the denominator counts the credits of every course whose
grade is not the 0 sentinel, which includes courses with an absent
grade. -/
def spec_average_grade_amended (courses : List Course) : Option ℚ :=
  let graded := courses.filter fun c => gradeTruthy c.grade
  let weighted_sum : ℚ := (graded.map fun c => (c.ects : ℚ) * c.grade.getD 0).sum
  let counted := courses.filter fun c => c.grade ≠ some 0
  let total_credits : ℕ := (counted.map (·.ects)).sum
  if total_credits > 0 then some (round2 (weighted_sum / (total_credits : ℚ))) else none

/-- Follows the spec wording for the actual value of current_vs_target
(spec section 4.2): the plain mean of every present, nonzero grade, and 0
when no such grade exists.  Compared against the source definition
Dashboard.avg_grade. -/
def spec_actual (courses : List Course) : ℚ :=
  let gs := courses.filterMap fun c =>
    match c.grade with
    | none => none
    | some g => if g = 0 then none else some g
  if gs = [] then 0 else gs.sum / (gs.length : ℚ)

/-- A two-course list exhibiting the divergence of C1: course B has an
absent grade, so the spec excludes its credits from the denominator but
the source counts them. -/
def cexC1 : List Course := [⟨"A", 3, some 2, 2, 1⟩, ⟨"B", 2, none, 2, 1⟩]

/-- The numerator of update_table, which filters on grade presence and
multiplies by "grade or 0", equals the same sum restricted to the courses
whose grade is present and nonzero: a present sentinel grade 0
contributes the term ects * 0. -/
lemma total_weighted_eq_truthy (courses : List Course) :
    Dashboard.total_weighted courses =
      ((courses.filter fun c => gradeTruthy c.grade).map fun c =>
        (c.ects : ℚ) * c.grade.getD 0).sum := by
  induction courses with
  | nil => rfl
  | cons c rest ih =>
    unfold Dashboard.total_weighted at *
    rw [List.filter_cons, List.filter_cons]
    cases h : c.grade with
    | none =>
      rw [if_neg (by simp), if_neg (by simp)]
      exact ih
    | some g =>
      by_cases hg : g = 0
      · rw [if_pos (by simp), if_neg (by simp [hg]), List.map_cons, List.sum_cons]
        have h0 : (c.ects : ℚ) * (if gradeTruthy c.grade then c.grade.getD 0 else 0) = 0 := by
          rw [h]; simp [hg]
        rw [h0, zero_add]
        exact ih
      · rw [if_pos (by simp), if_pos (by simp [hg]), List.map_cons, List.sum_cons,
          List.map_cons, List.sum_cons, ih]
        have h1 : (c.ects : ℚ) * (if gradeTruthy c.grade then c.grade.getD 0 else 0) =
            (c.ects : ℚ) * c.grade.getD 0 := by rw [h]; simp [hg]
        rw [h1]

/-- C1 (counterexample): on cexC1 the source GPA divides by 5 credits
(counting the ungraded course B) where the spec divides by 3, so the two
results differ: 1.2 versus 2. -/
theorem gpa_spec_counterexample :
    Dashboard.gpa cexC1 ≠ spec_average_grade cexC1 := by
  norm_num +decide [Dashboard.gpa, Dashboard.total_weighted, Dashboard.total_ects, round2,
    cexC1, spec_average_grade, gradeTruthy]

/-- C1 (amended): for every course list, the GPA of update_table equals
the amended spec formula, whose numerator ranges over the courses with a
present nonzero grade while its denominator counts the credits of every
course whose grade differs from the 0 sentinel, absent grades included;
the result is round(weighted_sum / total_credits, 2) when total_credits
is positive and the N/A sentinel (none) otherwise. -/
theorem gpa_eq_spec_average_grade_amended (courses : List Course) :
    Dashboard.gpa courses = spec_average_grade_amended courses := by
  have hd : ((courses.filter fun c => c.grade ≠ some 0).map (·.ects)).sum =
      Dashboard.total_ects courses := rfl
  simp only [Dashboard.gpa, spec_average_grade_amended]
  rw [total_weighted_eq_truthy, hd]
  by_cases h : Dashboard.total_ects courses = 0
  · rw [if_neg (by omega), if_neg (by omega)]
  · rw [if_pos h, if_pos (Nat.pos_of_ne_zero h)]

/-- C4: is_completed is true exactly when the grade is present and lies
in the closed band from 1 to 4; in particular it is false for an absent
grade, for the sentinel grade 0, and for the failing grade 5. -/
theorem is_completed_iff_graded_in_band (c : Course) :
    c.is_completed = true ↔ ∃ g, c.grade = some g ∧ 1 ≤ g ∧ g ≤ 4 := by
  cases h : c.grade with
  | none => simp [Course.is_completed, h]
  | some g => simp [Course.is_completed, h]

/-- C7: the constructor stores name, grade, target_grade and semester
verbatim, and assigns the ects attribute only when the ects argument is
nonzero; with a zero argument the prior attribute state survives. -/
theorem init_stores_fields_and_guards_ects (prior : Option ℕ) (nm : String) (e : ℕ)
    (g : Option ℚ) (tg : ℚ) (sem : ℕ) :
    (Course.init prior nm e g tg sem).name = nm ∧
    (Course.init prior nm e g tg sem).grade = g ∧
    (Course.init prior nm e g tg sem).target_grade = tg ∧
    (Course.init prior nm e g tg sem).semester = sem ∧
    (Course.init prior nm e g tg sem).ects = (if e = 0 then prior else some e) := by
  refine ⟨rfl, rfl, rfl, rfl, ?_⟩
  by_cases h : e = 0
  · simp [Course.init, h]
  · simp [Course.init, h]

/-- C8: serializing a valid course (positive credits) to its record and
reconstructing through the constructor yields the same attribute state:
every field, credits included, round-trips. -/
theorem from_dict_to_dict_roundtrip (c : Course) (h : 0 < c.ects) :
    Course.from_dict (Course.to_dict c) = c.attrs := by
  have h' : c.ects ≠ 0 := Nat.pos_iff_ne_zero.mp h
  simp [Course.from_dict, Course.to_dict, Course.init, Course.attrs, h']

/-- Witness for C8 at a concrete five-credit course. -/
theorem from_dict_to_dict_roundtrip_witness :
    0 < (⟨"Analysis", 5, some 2, 2, 1⟩ : Course).ects ∧
      Course.from_dict (Course.to_dict ⟨"Analysis", 5, some 2, 2, 1⟩) =
        Course.attrs ⟨"Analysis", 5, some 2, 2, 1⟩ :=
  ⟨by decide, from_dict_to_dict_roundtrip ⟨"Analysis", 5, some 2, 2, 1⟩ (by decide)⟩

/-- The comprehension of update_chart equals a single filterMap keeping
the present, nonzero grades. -/
lemma chart_grades_eq_filterMap (courses : List Course) :
    Dashboard.chart_grades courses =
      courses.filterMap fun c =>
        match c.grade with
        | none => none
        | some g => if g = 0 then none else some g := by
  induction courses with
  | nil => rfl
  | cons c rest ih =>
    unfold Dashboard.chart_grades at *
    rw [List.filter_cons, List.filterMap_cons]
    cases h : c.grade with
    | none =>
      rw [if_neg (by simp)]
      simp only [h]
      exact ih
    | some g =>
      by_cases hg : g = 0
      · rw [if_neg (by simp [hg])]
        simp only [h, hg, if_pos rfl]
        exact ih
      · rw [if_pos (by simp [hg]), List.map_cons]
        simp only [h, if_neg hg]
        rw [ih]
        simp [h]

/-- C9: the value charted by update_chart is the unweighted mean of the
grades of the courses whose grade is truthy (present and nonzero), and 0
when no such grade exists. -/
theorem avg_grade_eq_spec_actual (courses : List Course) :
    Dashboard.avg_grade courses = spec_actual courses := by
  unfold Dashboard.avg_grade spec_actual
  rw [chart_grades_eq_filterMap]
  by_cases h :
      (courses.filterMap fun c =>
        match c.grade with
        | none => none
        | some g => if g = 0 then none else some g) = []
  · simp [h]
  · simp [h]

/-- Replacing the value stored under an existing key does not change the
key list of the dict. -/
lemma names_insertByName_pos (acc : List Course) (c : Course)
    (h : (acc.any fun d => d.name = c.name) = true) :
    (CourseManager.insertByName acc c).map (·.name) = acc.map (·.name) := by
  unfold CourseManager.insertByName
  rw [if_pos h, List.map_map]
  have hf : ((fun d : Course => d.name) ∘ fun d => if d.name = c.name then c else d) =
      fun d : Course => d.name := by
    funext d
    by_cases hd : d.name = c.name
    · simp [Function.comp, hd]
    · simp [Function.comp, hd]
  rw [hf]

/-- Inserting a genuinely new key appends it to the key list of the
dict. -/
lemma names_insertByName_neg (acc : List Course) (c : Course)
    (h : ¬ (acc.any fun d => d.name = c.name) = true) :
    (CourseManager.insertByName acc c).map (·.name) = acc.map (·.name) ++ [c.name] := by
  unfold CourseManager.insertByName
  rw [if_neg h, List.map_append]
  rfl

/-- Inserting into the dict keeps the size when the key exists and grows
it by one otherwise. -/
lemma insertByName_length (acc : List Course) (c : Course) :
    (CourseManager.insertByName acc c).length =
      if (acc.any fun d => d.name = c.name) = true then acc.length else acc.length + 1 := by
  unfold CourseManager.insertByName
  by_cases h : (acc.any fun d => d.name = c.name) = true
  · rw [if_pos h, if_pos h, List.length_map]
  · rw [if_neg h, if_neg h, List.length_append, List.length_cons, List.length_nil]

/-- The membership of a name in the dict keys survives any later
insertion. -/
lemma mem_names_insertByName (acc : List Course) (c : Course) (x : String)
    (hx : x ∈ acc.map (·.name)) : x ∈ (CourseManager.insertByName acc c).map (·.name) := by
  by_cases h : (acc.any fun d => d.name = c.name) = true
  · rw [names_insertByName_pos acc c h]; exact hx
  · rw [names_insertByName_neg acc c h]; exact List.mem_append_left _ hx

/-- The name of an inserted course is among the dict keys afterwards. -/
lemma self_mem_names_insertByName (acc : List Course) (c : Course) :
    c.name ∈ (CourseManager.insertByName acc c).map (·.name) := by
  by_cases h : (acc.any fun d => d.name = c.name) = true
  · rw [names_insertByName_pos acc c h]
    rw [List.any_eq_true] at h
    obtain ⟨e, he, hec⟩ := h
    rw [List.mem_map]
    exact ⟨e, he, by simpa using hec⟩
  · rw [names_insertByName_neg acc c h]
    exact List.mem_append_right _ (by simp)

/-- Building the dict never produces more entries than elements were
folded in. -/
lemma foldl_insertByName_length_le (l : List Course) (acc : List Course) :
    (List.foldl CourseManager.insertByName acc l).length ≤ acc.length + l.length := by
  induction l generalizing acc with
  | nil => simp
  | cons c rest ih =>
    rw [List.foldl_cons]
    have h1 := ih (CourseManager.insertByName acc c)
    have h2 : (CourseManager.insertByName acc c).length ≤ acc.length + 1 := by
      rw [insertByName_length]
      split <;> omega
    rw [List.length_cons]
    omega

/-- If some element folded into the dict carries a key the accumulator
already has, the final dict is strictly smaller than accumulator plus
input. -/
lemma foldl_insertByName_length_lt (l : List Course) (acc : List Course)
    (h : ∃ d ∈ l, d.name ∈ acc.map (·.name)) :
    (List.foldl CourseManager.insertByName acc l).length < acc.length + l.length := by
  induction l generalizing acc with
  | nil =>
    obtain ⟨d, hd, _⟩ := h
    simp at hd
  | cons c rest ih =>
    rw [List.foldl_cons, List.length_cons]
    obtain ⟨d, hd, hdn⟩ := h
    rcases List.mem_cons.mp hd with rfl | hdrest
    · have hany : (acc.any fun e => e.name = d.name) = true := by
        rw [List.any_eq_true]
        rw [List.mem_map] at hdn
        obtain ⟨e, he, hen⟩ := hdn
        exact ⟨e, he, by simpa using hen⟩
      have hlen : (CourseManager.insertByName acc d).length = acc.length := by
        rw [insertByName_length, if_pos hany]
      have hb := foldl_insertByName_length_le rest (CourseManager.insertByName acc d)
      omega
    · have hx : d.name ∈ (CourseManager.insertByName acc c).map (·.name) :=
        mem_names_insertByName acc c d.name hdn
      have hrec := ih (CourseManager.insertByName acc c) ⟨d, hdrest, hx⟩
      have hlen : (CourseManager.insertByName acc c).length ≤ acc.length + 1 := by
        rw [insertByName_length]
        split <;> omega
      omega

/-- A duplicated name in the input makes the dict strictly smaller than
the input however the fold started. -/
lemma foldl_insertByName_length_lt_of_dup (l : List Course) (acc : List Course)
    (h : ¬ (l.map (·.name)).Nodup) :
    (List.foldl CourseManager.insertByName acc l).length < acc.length + l.length := by
  induction l generalizing acc with
  | nil => simp at h
  | cons c rest ih =>
    rw [List.map_cons, List.nodup_cons, not_and_or, not_not] at h
    rw [List.foldl_cons, List.length_cons]
    rcases h with hmem | hdup
    · rw [List.mem_map] at hmem
      obtain ⟨d, hd, hdn⟩ := hmem
      have hx : d.name ∈ (CourseManager.insertByName acc c).map (·.name) := by
        rw [hdn]
        exact self_mem_names_insertByName acc c
      have := foldl_insertByName_length_lt rest (CourseManager.insertByName acc c)
        ⟨d, hd, hx⟩
      have hlen : (CourseManager.insertByName acc c).length ≤ acc.length + 1 := by
        rw [insertByName_length]
        split <;> omega
      omega
    · have := ih (CourseManager.insertByName acc c) hdup
      have hlen : (CourseManager.insertByName acc c).length ≤ acc.length + 1 := by
        rw [insertByName_length]
        split <;> omega
      omega

/-- A concrete course list with a duplicated name, used to witness C3. -/
def dupCourses : List Course :=
  [⟨"Analysis", 5, none, 2, 1⟩, ⟨"Analysis", 3, some 2, 2, 2⟩]

/-- C3: if at least two courses share a name (the mapped name list is not
duplicate-free), save_courses reports failure and the persisted state is
returned unchanged: the write branch is never reached. -/
theorem save_courses_duplicate_rejected (courses : List Course)
    (persisted : List CourseRecord) (h : ¬ (courses.map (·.name)).Nodup) :
    CourseManager.save_courses courses persisted = (false, persisted) := by
  unfold CourseManager.save_courses CourseManager.dictByName
  have hlt := foldl_insertByName_length_lt_of_dup courses [] h
  rw [List.length_nil, Nat.zero_add] at hlt
  rw [if_pos hlt]

/-- Witness for C3 on a list naming Analysis twice and an arbitrary
nonempty persisted state. -/
theorem save_courses_duplicate_rejected_witness :
    (¬ (dupCourses.map (·.name)).Nodup) ∧
      CourseManager.save_courses dupCourses [⟨"Old", 1, none, 1, 1⟩] =
        (false, [⟨"Old", 1, none, 1, 1⟩]) :=
  ⟨by decide, save_courses_duplicate_rejected dupCourses [⟨"Old", 1, none, 1, 1⟩] (by decide)⟩

/-- When the average rate is defined and every index passes the bound
check, the burndown loop appends exactly the three projected formulas,
one value per period. -/
lemma burndown_loop_map_eq (te ee tt : ℚ) (ltp : ℕ) (r : ℚ) (L : List ℕ)
    (hL : ∀ i ∈ L, i ≤ ltp) (a b c : List ℚ) :
    Dashboard.burndown_loop te ee tt ltp (some r) L (a, b, c) =
      some (a ++ L.map fun i : ℕ => te - (i : ℚ) * (ee / tt),
            b ++ L.map fun i : ℕ => te - (te / tt) * (i : ℚ),
            c ++ L.map fun i : ℕ => te - (i : ℚ) * r) := by
  induction L generalizing a b c with
  | nil => simp [Dashboard.burndown_loop]
  | cons i is ih =>
    have hi : i ≤ ltp := hL i (List.mem_cons_self i is)
    rw [Dashboard.burndown_loop, if_pos hi]
    rw [ih (fun j hj => hL j (List.mem_cons_of_mem i hj))]
    simp [List.append_assoc]

/-- Closed form of the burndown computation for at least two periods: the
x axis is the semester range and each series is the seed followed by the
mapped projection formula; the average rate simplifies to
earned / (periods - 1). -/
lemma update_burndown_core_eq (courses : List Course) (n : ℕ) (hn : 2 ≤ n) :
    Dashboard.update_burndown_core courses n =
      some ⟨List.range' 1 n,
        (Dashboard.target_ects courses : ℚ) :: (List.range' 1 n).map
          (fun i : ℕ => (Dashboard.target_ects courses : ℚ) -
            (i : ℚ) * ((Dashboard.earned_ects courses : ℚ) / (n : ℚ))),
        (Dashboard.target_ects courses : ℚ) :: (List.range' 1 n).map
          (fun i : ℕ => (Dashboard.target_ects courses : ℚ) -
            ((Dashboard.target_ects courses : ℚ) / (n : ℚ)) * (i : ℚ)),
        (Dashboard.target_ects courses : ℚ) :: (List.range' 1 n).map
          (fun i : ℕ => (Dashboard.target_ects courses : ℚ) -
            (i : ℚ) * ((Dashboard.earned_ects courses : ℚ) / ((n : ℚ) - 1)))⟩ := by
  unfold Dashboard.update_burndown_core
  simp only [List.length_range']
  rw [if_pos (by omega : n > 1)]
  have hsub : (Dashboard.target_ects courses : ℚ) -
      ((Dashboard.target_ects courses : ℚ) - (Dashboard.earned_ects courses : ℚ)) =
      (Dashboard.earned_ects courses : ℚ) := by ring
  rw [hsub]
  rw [burndown_loop_map_eq _ _ _ _ _ _ ?mem]
  case mem =>
    intro i hi
    rw [List.mem_range'] at hi
    obtain ⟨j, hj, rfl⟩ := hi
    omega
  simp

/-- Index lookup in a seeded series: position i of the seed followed by
the projections over periods 1..n is the formula at period i, for
1 ≤ i ≤ n. -/
lemma seeded_series_getElem (x : ℚ) (f : ℕ → ℚ) (n i : ℕ) (h1 : 1 ≤ i) (h2 : i ≤ n) :
    (x :: (List.range' 1 n).map f)[i]? = some (f i) := by
  cases i with
  | zero => omega
  | succ k =>
    rw [List.getElem?_cons_succ, List.getElem?_map,
      List.getElem?_range' 1 1 (show k < n by omega)]
    simp only [Option.map_some']
    have hk : 1 + 1 * k = k + 1 := by omega
    rw [hk]

/-- C5: for at least two periods, the burndown computation succeeds and
every period i in 1..total_periods carries exactly the three projected
values of the claim: target - i * (earned / periods) for the actual
series, target - (target / periods) * i for the ideal line, and
target - i * (earned / (periods - 1)) for the average-rate series. -/
theorem burndown_series_formulas (courses : List Course) (n : ℕ) (hn : 2 ≤ n)
    (i : ℕ) (h1 : 1 ≤ i) (h2 : i ≤ n) :
    ∃ d, Dashboard.update_burndown_core courses n = some d ∧
      d.ects_progress[i]? = some ((Dashboard.target_ects courses : ℚ) -
        (i : ℚ) * ((Dashboard.earned_ects courses : ℚ) / (n : ℚ))) ∧
      d.optimal_progress[i]? = some ((Dashboard.target_ects courses : ℚ) -
        ((Dashboard.target_ects courses : ℚ) / (n : ℚ)) * (i : ℚ)) ∧
      d.average_burn_rate[i]? = some ((Dashboard.target_ects courses : ℚ) -
        (i : ℚ) * ((Dashboard.earned_ects courses : ℚ) / ((n : ℚ) - 1))) := by
  refine ⟨_, update_burndown_core_eq courses n hn, ?_, ?_, ?_⟩ <;>
    exact seeded_series_getElem _ _ n i h1 h2

/-- Witness for C5: one ungraded five-credit course over two periods,
checked at period one. -/
theorem burndown_series_formulas_witness :
    (2 ≤ 2 ∧ 1 ≤ 1 ∧ 1 ≤ 2) ∧
      ∃ d, Dashboard.update_burndown_core [⟨"Analysis", 5, none, 2, 1⟩] 2 = some d ∧
        d.ects_progress[1]? = some ((Dashboard.target_ects [⟨"Analysis", 5, none, 2, 1⟩] : ℚ) -
          (1 : ℚ) * ((Dashboard.earned_ects [⟨"Analysis", 5, none, 2, 1⟩] : ℚ) / (2 : ℚ))) ∧
        d.optimal_progress[1]? = some ((Dashboard.target_ects [⟨"Analysis", 5, none, 2, 1⟩] : ℚ) -
          ((Dashboard.target_ects [⟨"Analysis", 5, none, 2, 1⟩] : ℚ) / (2 : ℚ)) * (1 : ℚ)) ∧
        d.average_burn_rate[1]? = some ((Dashboard.target_ects [⟨"Analysis", 5, none, 2, 1⟩] : ℚ) -
          (1 : ℚ) * ((Dashboard.earned_ects [⟨"Analysis", 5, none, 2, 1⟩] : ℚ) / ((2 : ℚ) - 1))) :=
  ⟨⟨by decide, by decide, by decide⟩,
    burndown_series_formulas [⟨"Analysis", 5, none, 2, 1⟩] 2 (by decide) 1 (by decide) (by decide)⟩

/-- C2: with exactly one period the guarded assignment of average_rate
does not run, yet the loop body executes and reads it, so the computation
raises (returns none) for every course list instead of producing an
explicit empty series. -/
theorem update_burndown_single_period_raises (courses : List Course) :
    Dashboard.update_burndown_core courses 1 = none := rfl

/-- C6: with target_time 0 the period list is empty, every plotted output
series is empty, and the computation completes without any division
error. -/
theorem update_burndown_zero_target_empty (courses : List Course) :
    ∃ d, Dashboard.update_burndown_chart courses 0 = some d ∧
      d.time_periods = [] ∧ Dashboard.burndown_plotted d = ([], [], []) :=
  ⟨⟨[], [(Dashboard.target_ects courses : ℚ)], [(Dashboard.target_ects courses : ℚ)],
    [(Dashboard.target_ects courses : ℚ)]⟩, rfl, rfl, rfl⟩

/-- C10: sorting by semester returns a permutation of the input, ordered
by non-decreasing semester, and stably: any two courses in input order
with equal semesters stay in that order in the output.  (The input list
itself is a value in this embedding and cannot be mutated.) -/
theorem sort_courses_by_semester_spec (courses : List Course) :
    (CourseManager.sort_courses_by_semester courses).Perm courses ∧
    (CourseManager.sort_courses_by_semester courses).Pairwise
      (fun a b => a.semester ≤ b.semester) ∧
    ∀ a b : Course, a.semester = b.semester → [a, b].Sublist courses →
      [a, b].Sublist (CourseManager.sort_courses_by_semester courses) := by
  have htrans : ∀ a b c : Course, (decide (a.semester ≤ b.semester) = true) →
      (decide (b.semester ≤ c.semester) = true) → (decide (a.semester ≤ c.semester) = true) := by
    intro a b c hab hbc
    simp only [decide_eq_true_eq] at *
    omega
  have htotal : ∀ a b : Course,
      (decide (a.semester ≤ b.semester) || decide (b.semester ≤ a.semester)) = true := by
    intro a b
    simp only [Bool.or_eq_true, decide_eq_true_eq]
    omega
  unfold CourseManager.sort_courses_by_semester
  refine ⟨List.mergeSort_perm courses _, ?_, ?_⟩
  · have hs := List.sorted_mergeSort htrans htotal courses
    exact hs.imp fun h => by simpa using h
  · intro a b hab hsub
    exact List.pair_sublist_mergeSort htrans htotal (by simp [hab]) hsub

/-- Witness for C10 stability at two distinct courses sharing semester
three. -/
theorem sort_courses_by_semester_spec_witness :
    [(⟨"A", 5, none, 2, 3⟩ : Course), ⟨"B", 3, none, 2, 3⟩].Sublist
      (CourseManager.sort_courses_by_semester [⟨"A", 5, none, 2, 3⟩, ⟨"B", 3, none, 2, 3⟩]) :=
  (sort_courses_by_semester_spec [⟨"A", 5, none, 2, 3⟩, ⟨"B", 3, none, 2, 3⟩]).2.2
    ⟨"A", 5, none, 2, 3⟩ ⟨"B", 3, none, 2, 3⟩ rfl (List.Sublist.refl _)

end StudyDashboard
